import Mathlib

/-!
Verification of the SimpleSampler real-time core: a shallow embedding of
`src/simplesampler/audio/playback.py` (AudioPlayer: mixing callback, voice
lifecycle, WAV decode/resample), `src/simplesampler/midi/__init__.py`
(binding matcher) and `src/simplesampler/sequencer/engine.py` (sequencer
engine: bar-boundary pattern switching, count-in abort, start/stop thread
discipline).

Machine floats of the original are modelled as exact rationals; numpy
arrays as lists.  A stereo frame is a pair of samples.
-/

namespace SimpleSampler

/-- A stereo frame: one sample per channel (`CHANNELS = 2`). -/
abbrev Frame := ℚ × ℚ

/-- `AudioPlayer.RATE` -/
def RATE : ℕ := 44100

/-- A voice, as stored in `AudioPlayer.active_voices`:
`{"data": data, "idx": idx}` — a buffer and a read cursor. -/
structure Voice where
  data : List Frame
  idx : ℕ
deriving Repr, DecidableEq

/-- `AudioPlayer.play_data(data)`: rejects `None` and zero-length buffers,
otherwise appends `{"data": data, "idx": 0}` to `active_voices`. -/
def play_data (voices : List Voice) (data : Option (List Frame)) : List Voice :=
  match data with
  | none => voices
  | some d => if d.length = 0 then voices else voices ++ [⟨d, 0⟩]

/-- `out_data[:to_read] += chunk` — add `chunk` pointwise onto the prefix
of `out`. -/
def addChunk : List Frame → List Frame → List Frame
  | out, [] => out
  | [], _ => []
  | o :: os, c :: cs => (o + c) :: addChunk os cs

/-- Cursor advance of one voice in `AudioPlayer._callback`:
`to_read = min(frame_count, remaining)`; `if to_read > 0: voice["idx"] += to_read`.
(Nat subtraction models Python's `remaining = len(data) - idx`, which is
never negative for voices kept in the active list.) -/
def voiceAdvance (n : ℕ) (v : Voice) : Voice :=
  if 0 < min n (v.data.length - v.idx) then
    ⟨v.data, v.idx + min n (v.data.length - v.idx)⟩
  else v

/-- One voice's fate in a mix cycle: advance the cursor, then
`if voice["idx"] >= len(data): self.active_voices.pop(i)`. -/
def voiceStep (n : ℕ) (v : Voice) : Option Voice :=
  if (voiceAdvance n v).data.length ≤ (voiceAdvance n v).idx then none
  else some (voiceAdvance n v)

/-- The `for i in range(len(self.active_voices) - 1, -1, -1)` loop of
`AudioPlayer._callback`: the list is traversed backwards (so the tail is
processed first), each voice adds `data[idx : idx + to_read]` onto the
output prefix, and finished voices are dropped; surviving voices keep
their relative order. -/
def mixLoop (n : ℕ) : List Voice → List Frame → List Frame × List Voice
  | [], out => (out, [])
  | v :: vs, out =>
    let r := mixLoop n vs out
    let toRead := min n (v.data.length - v.idx)
    let acc := if 0 < toRead then addChunk r.1 ((v.data.drop v.idx).take toRead) else r.1
    (acc, match voiceStep n v with
          | none => r.2
          | some w => w :: r.2)

/-- `np.clip(x, -1.0, 1.0)` on one sample. -/
def clip (x : ℚ) : ℚ := max (-1) (min x 1)

/-- `out_data = out_data * 0.7` then `np.clip(out_data, -1.0, 1.0)`,
per channel of one frame. -/
def postProcess (f : Frame) : Frame := (clip (f.1 * (7/10)), clip (f.2 * (7/10)))

/-- `AudioPlayer._callback`: zero an output buffer of `frame_count` frames,
mix every active voice into it, apply the global 0.7 gain and hard-clip.
Returns the emitted buffer and the surviving active-voice list. -/
def callback (voices : List Voice) (frameCount : ℕ) : List Frame × List Voice :=
  let r := mixLoop frameCount voices (List.replicate frameCount 0)
  (r.1.map postProcess, r.2)

/-- The contribution of one voice to output frame `j` of a cycle of
`n` frames: `data[idx + j]` for `j < min(n, remaining)`, zero beyond. -/
def voiceContrib (n : ℕ) (v : Voice) (j : ℕ) : Frame :=
  if j < min n (v.data.length - v.idx) then v.data.getD (v.idx + j) 0 else 0

-- ### basic list lemmas

theorem addChunk_length (c out : List Frame) : (addChunk out c).length = out.length := by
  induction c generalizing out with
  | nil => cases out <;> rfl
  | cons x xs ih =>
    cases out with
    | nil => rfl
    | cons o os => simp [addChunk, ih]

theorem getD_drop (l : List Frame) (i j : ℕ) :
    (l.drop i).getD j 0 = l.getD (i + j) 0 := by
  induction l generalizing i with
  | nil => simp
  | cons a as ih =>
    cases i with
    | zero => simp
    | succ k => simpa [Nat.succ_add] using ih k

theorem getD_take (l : List Frame) (k j : ℕ) (h : j < k) :
    (l.take k).getD j 0 = l.getD j 0 := by
  induction l generalizing k j with
  | nil => simp
  | cons a as ih =>
    cases k with
    | zero => omega
    | succ m =>
      cases j with
      | zero => simp
      | succ i => simpa using ih m i (by omega)

theorem addChunk_getD (c out : List Frame) (j : ℕ) (h : j < out.length) :
    (addChunk out c).getD j 0 =
      out.getD j 0 + (if j < c.length then c.getD j 0 else 0) := by
  induction c generalizing out j with
  | nil => cases out <;> simp [addChunk]
  | cons x xs ih =>
    cases out with
    | nil => simp at h
    | cons o os =>
      cases j with
      | zero => simp [addChunk]
      | succ i =>
        have h2 : i < os.length := by simpa using h
        simpa [addChunk, Nat.succ_lt_succ_iff] using ih os i h2

theorem mixLoop_length (n : ℕ) (vs : List Voice) (out : List Frame) :
    (mixLoop n vs out).1.length = out.length := by
  induction vs generalizing out with
  | nil => rfl
  | cons v vs ih =>
    simp only [mixLoop]
    split
    · rw [addChunk_length, ih]
    · exact ih out

theorem mixLoop_getD (n : ℕ) (vs : List Voice) (out : List Frame) (j : ℕ)
    (h : j < out.length) :
    (mixLoop n vs out).1.getD j 0 =
      out.getD j 0 + (vs.map (fun v => voiceContrib n v j)).sum := by
  induction vs generalizing out with
  | nil => simp [mixLoop]
  | cons v vs ih =>
    have hlen : j < (mixLoop n vs out).1.length := by rw [mixLoop_length]; exact h
    have hchunklen : ((v.data.drop v.idx).take (min n (v.data.length - v.idx))).length
        = min n (v.data.length - v.idx) := by
      simp [List.length_take, List.length_drop]
    simp only [mixLoop, List.map_cons, List.sum_cons]
    split
    · rename_i hpos
      rw [addChunk_getD _ _ j hlen, ih out h, hchunklen]
      by_cases hj : j < min n (v.data.length - v.idx)
      · rw [if_pos hj, getD_take _ _ _ hj, getD_drop]
        simp only [voiceContrib, if_pos hj]
        ring
      · rw [if_neg hj]
        simp only [voiceContrib, if_neg hj]
        ring
    · rename_i hzero
      have hmin : min n (v.data.length - v.idx) = 0 := by omega
      rw [ih out h]
      simp [voiceContrib, hmin]

theorem mixLoop_voices (n : ℕ) (vs : List Voice) (out : List Frame) :
    (mixLoop n vs out).2 = vs.filterMap (voiceStep n) := by
  induction vs with
  | nil => rfl
  | cons v vs ih =>
    simp only [mixLoop, List.filterMap_cons]
    cases hv : voiceStep n v <;> simp [hv, ih]

theorem voiceAdvance_data (n : ℕ) (v : Voice) : (voiceAdvance n v).data = v.data := by
  unfold voiceAdvance
  split <;> rfl

theorem voiceAdvance_idx (n : ℕ) (v : Voice) :
    (voiceAdvance n v).idx = v.idx + min n (v.data.length - v.idx) := by
  unfold voiceAdvance
  split
  · rfl
  · omega

theorem voiceStep_none_iff (n : ℕ) (v : Voice) :
    voiceStep n v = none ↔ v.data.length ≤ v.idx + n := by
  simp only [voiceStep, voiceAdvance_data, voiceAdvance_idx]
  split_ifs with h
  · constructor
    · intro _; omega
    · intro _; rfl
  · constructor
    · intro hco; simp at hco
    · intro hle
      exact absurd (show v.data.length ≤ v.idx + min n (v.data.length - v.idx) by omega) h

theorem clip_abs_le (x : ℚ) : |clip x| ≤ 1 := by
  rw [abs_le]
  constructor
  · exact le_max_left _ _
  · exact max_le (by norm_num) (min_le_right _ _)

theorem replicate_getD (k j : ℕ) : ((List.replicate k (0 : Frame)).getD j 0) = 0 := by
  induction k generalizing j with
  | zero => simp
  | succ m ih =>
    cases j with
    | zero => simp [List.replicate]
    | succ i => simpa [List.replicate] using ih i

theorem map_getD_postProcess (l : List Frame) (j : ℕ) (h : j < l.length) :
    (l.map postProcess).getD j 0 = postProcess (l.getD j 0) := by
  induction l generalizing j with
  | nil => simp at h
  | cons a as ih =>
    cases j with
    | zero => simp
    | succ i => simpa using ih i (by simpa using h)

theorem callback_out_getD (voices : List Voice) (n j : ℕ) (hj : j < n) :
    (callback voices n).1.getD j 0 =
      postProcess ((voices.map (fun v => voiceContrib n v j)).sum) := by
  show ((mixLoop n voices (List.replicate n 0)).1.map postProcess).getD j 0 = _
  rw [map_getD_postProcess _ j (by rw [mixLoop_length]; simpa using hj),
    mixLoop_getD _ _ _ _ (by simpa using hj), replicate_getD, zero_add]

theorem callback_voices_eq (voices : List Voice) (n : ℕ) :
    (callback voices n).2 = voices.filterMap (voiceStep n) := by
  show (mixLoop n voices (List.replicate n 0)).2 = _
  exact mixLoop_voices n voices _

theorem voiceStep_some_lt (n : ℕ) (v w : Voice) (h : voiceStep n v = some w) :
    w.idx < w.data.length := by
  unfold voiceStep at h
  split_ifs at h with hc
  cases h
  exact lt_of_not_le hc

/-- C1: in every mix cycle, each output frame of `AudioPlayer._callback`
equals 0.7 times the pointwise sum of the contributions of all active
voices (each voice contributing `min(frame_count, remaining)` samples from
its cursor, zero beyond), hard-clipped to `[-1, 1]`; every output sample
magnitude is at most 1; and submitting two buffers before one cycle yields
`0.7 × (pointwise sum)` clipped, frame by frame, while both are in range. -/
theorem c1_mix_additivity_gain_clipping (voices : List Voice) (n j : ℕ) (hj : j < n) :
    (callback voices n).1.getD j 0 =
      (clip (((voices.map (fun v => voiceContrib n v j)).sum).1 * (7/10)),
       clip (((voices.map (fun v => voiceContrib n v j)).sum).2 * (7/10)))
    ∧ |((callback voices n).1.getD j 0).1| ≤ 1
    ∧ |((callback voices n).1.getD j 0).2| ≤ 1
    ∧ ∀ (a b : List Frame), j < a.length → j < b.length →
        (callback (play_data (play_data [] (some a)) (some b)) n).1.getD j 0 =
          (clip ((a.getD j 0 + b.getD j 0).1 * (7/10)),
           clip ((a.getD j 0 + b.getD j 0).2 * (7/10))) := by
  refine ⟨callback_out_getD voices n j hj, ?_, ?_, ?_⟩
  · rw [callback_out_getD voices n j hj]
    exact clip_abs_le _
  · rw [callback_out_getD voices n j hj]
    exact clip_abs_le _
  · intro a b ha hb
    have ha0 : ¬ a.length = 0 := by omega
    have hb0 : ¬ b.length = 0 := by omega
    have hpa : play_data (play_data [] (some a)) (some b) = [⟨a, 0⟩, ⟨b, 0⟩] := by
      simp [play_data, ha0, hb0]
    rw [hpa, callback_out_getD _ n j hj]
    have hca : voiceContrib n ⟨a, 0⟩ j = a.getD j 0 := by
      simp only [voiceContrib]
      rw [if_pos (by simp; omega)]
      simp
    have hcb : voiceContrib n ⟨b, 0⟩ j = b.getD j 0 := by
      simp only [voiceContrib]
      rw [if_pos (by simp; omega)]
      simp
    simp [hca, hcb, postProcess]

/-- Witness for C1 at a concrete input: one active voice holding a single
frame `(1, 1)`, mixed over a 2-frame cycle, emits `(0.7, 0.7)` at frame 0. -/
theorem c1_witness : (callback [⟨[((1 : ℚ), (1 : ℚ))], 0⟩] 2).1.getD 0 0 = (7/10, 7/10) := by
  have h := (c1_mix_additivity_gain_clipping [⟨[((1 : ℚ), (1 : ℚ))], 0⟩] 2 0 (by norm_num)).1
  rw [h]
  norm_num [voiceContrib, clip]

/-- C9: `AudioPlayer._callback` removes a voice exactly in the cycle its
cursor reaches the buffer length (`voiceStep` yields `none` iff
`len ≤ idx + frame_count`); after every cycle each surviving voice's
cursor is strictly below its buffer length; and a buffer no longer than
one mix cycle is fully consumed in a single cycle, leaving the active set
as if it had never been added. -/
theorem c9_voice_lifecycle (voices : List Voice) (n : ℕ) :
    (callback voices n).2 = voices.filterMap (voiceStep n)
    ∧ (∀ v : Voice, voiceStep n v = none ↔ v.data.length ≤ v.idx + n)
    ∧ (∀ w ∈ (callback voices n).2, w.idx < w.data.length)
    ∧ (∀ d : List Frame, d ≠ [] → d.length ≤ n →
        (callback (play_data voices (some d)) n).2 = (callback voices n).2) := by
  refine ⟨callback_voices_eq voices n, voiceStep_none_iff n, ?_, ?_⟩
  · intro w hw
    rw [callback_voices_eq] at hw
    obtain ⟨v, _, hv⟩ := List.mem_filterMap.mp hw
    exact voiceStep_some_lt n v w hv
  · intro d hd hlen
    have h0 : ¬ d.length = 0 := by simpa using hd
    have hnone : voiceStep n ⟨d, 0⟩ = none :=
      (voiceStep_none_iff n ⟨d, 0⟩).mpr (by simpa using hlen)
    rw [callback_voices_eq, callback_voices_eq]
    simp [play_data, h0, List.filterMap_append, hnone]

/-- Witness for C9 at a concrete input: a one-frame buffer submitted
before a 4-frame cycle leaves the active set exactly as without it. -/
theorem c9_witness :
    (callback (play_data [] (some [((1 : ℚ), (1 : ℚ))])) 4).2 = (callback [] 4).2 :=
  (c9_voice_lifecycle [] 4).2.2.2 [((1 : ℚ), (1 : ℚ))] (by simp) (by simp)

/-- C10: `AudioPlayer.play_data` ignores `None` and zero-length buffers,
and for a non-empty buffer appends exactly one new voice with cursor 0,
leaving the existing voices unchanged. -/
theorem c10_play_data_guard (voices : List Voice) :
    play_data voices none = voices
    ∧ play_data voices (some []) = voices
    ∧ ∀ d : List Frame, d ≠ [] → play_data voices (some d) = voices ++ [⟨d, 0⟩] := by
  refine ⟨rfl, by simp [play_data], ?_⟩
  intro d hd
  have h0 : ¬ d.length = 0 := by simpa using hd
  simp [play_data, h0]

/-- Witness for C10 at a concrete input: a one-frame buffer is appended
as a fresh voice with cursor 0. -/
theorem c10_witness :
    play_data [] (some [((1 : ℚ), (2 : ℚ))]) = [⟨[((1 : ℚ), (2 : ℚ))], 0⟩] :=
  (c10_play_data_guard []).2.2 _ (by simp)

/-! ## MIDI binding matcher (`simplesampler/midi/__init__.py`) -/

/-- The mido message kinds relevant to `midi_msg_matches`, as a closed
variant type: the source dispatches on `msg.type` strings
(`note_on`, `control_change`, `program_change`); everything else is
`other`. -/
inductive MidiMsg where
  | note_on (channel note velocity : ℕ)
  | note_off (channel note velocity : ℕ)
  | control_change (channel control value : ℕ)
  | program_change (channel program : ℕ)
  | other
deriving Repr, DecidableEq

/-- `midi_msg_matches(msg, bind)`: `bind` is the `(type, number, channel)`
triple produced by `parse_midibind`. -/
def midi_msg_matches (msg : MidiMsg) (bind : String × ℕ × ℕ) : Bool :=
  if bind.1 = "note" then
    match msg with
    | MidiMsg.note_on ch note vel =>
        if 0 < vel then note == bind.2.1 && ch == bind.2.2 else false
    | _ => false
  else if bind.1 = "cc" then
    match msg with
    | MidiMsg.control_change ch control _ => control == bind.2.1 && ch == bind.2.2
    | _ => false
  else if bind.1 = "pc" then
    match msg with
    | MidiMsg.program_change ch program => program == bind.2.1 && ch == bind.2.2
    | _ => false
  else false

/-- C4: a `note` binding matches exactly the `note_on` messages with
velocity > 0 and equal note number and channel (velocity 0 never
matches); a `cc` binding matches exactly the `control_change` messages
with equal controller and channel; a `pc` binding matches exactly the
`program_change` messages with equal program and channel; `note_off` and
any other message kind never match any binding. -/
theorem c4_binding_match (msg : MidiMsg) (num chan : ℕ) :
    (midi_msg_matches msg ("note", num, chan) = true ↔
      ∃ c n v, msg = MidiMsg.note_on c n v ∧ 0 < v ∧ n = num ∧ c = chan)
    ∧ (midi_msg_matches msg ("cc", num, chan) = true ↔
      ∃ c n val, msg = MidiMsg.control_change c n val ∧ n = num ∧ c = chan)
    ∧ (midi_msg_matches msg ("pc", num, chan) = true ↔
      ∃ c p, msg = MidiMsg.program_change c p ∧ p = num ∧ c = chan)
    ∧ (∀ bt : String, ∀ c n v : ℕ,
        midi_msg_matches (MidiMsg.note_off c n v) (bt, num, chan) = false)
    ∧ (∀ bt : String, midi_msg_matches MidiMsg.other (bt, num, chan) = false) := by
  refine ⟨⟨?_, ?_⟩, ⟨?_, ?_⟩, ⟨?_, ?_⟩, ?_, ?_⟩
  · intro h
    cases msg with
    | note_on c n v =>
      by_cases hv : 0 < v
      · simp [midi_msg_matches, hv] at h
        exact ⟨c, n, v, rfl, hv, h.1, h.2⟩
      · simp [midi_msg_matches, hv] at h
    | note_off c n v => simp [midi_msg_matches] at h
    | control_change c n val => simp [midi_msg_matches] at h
    | program_change c p => simp [midi_msg_matches] at h
    | other => simp [midi_msg_matches] at h
  · rintro ⟨c, n, v, rfl, hv, rfl, rfl⟩
    simp [midi_msg_matches, hv]
  · intro h
    cases msg with
    | note_on c n v => simp [midi_msg_matches] at h
    | note_off c n v => simp [midi_msg_matches] at h
    | control_change c n val =>
      simp [midi_msg_matches] at h
      exact ⟨c, n, val, rfl, h.1, h.2⟩
    | program_change c p => simp [midi_msg_matches] at h
    | other => simp [midi_msg_matches] at h
  · rintro ⟨c, n, val, rfl, rfl, rfl⟩
    simp [midi_msg_matches]
  · intro h
    cases msg with
    | note_on c n v => simp [midi_msg_matches] at h
    | note_off c n v => simp [midi_msg_matches] at h
    | control_change c n val => simp [midi_msg_matches] at h
    | program_change c p =>
      simp [midi_msg_matches] at h
      exact ⟨c, p, rfl, h.1, h.2⟩
    | other => simp [midi_msg_matches] at h
  · rintro ⟨c, p, rfl, rfl, rfl⟩
    simp [midi_msg_matches]
  · intro bt c n v
    simp only [midi_msg_matches]
    split_ifs <;> rfl
  · intro bt
    simp only [midi_msg_matches]
    split_ifs <;> rfl

/-! ## Sequencer: bar-boundary pattern switching
(`SequencerEngine.queue_pattern_switch` and the head of the `_run`
playback loop body) -/

/-- The pattern-switching fields of `SequencerEngine`:
`_current_step`, `sequence.active_pattern`, `_pending_pattern`. -/
structure SeqSwitchState where
  currentStep : ℕ
  activePattern : ℕ
  pendingPattern : Option ℕ
deriving Repr, DecidableEq

/-- `SequencerEngine.queue_pattern_switch(index)`:
`if 0 <= index < len(self.sequence.patterns): self._pending_pattern = index`. -/
def queue_pattern_switch (numPatterns : ℕ) (s : SeqSwitchState) (index : ℕ) : SeqSwitchState :=
  if index < numPatterns then { s with pendingPattern := some index } else s

/-- The bar-boundary check at the top of the `_run` playback loop:
`if self._current_step == 0 and self._pending_pattern is not None:
apply the pending pattern and clear it`. -/
def applyPendingAtBar (s : SeqSwitchState) : SeqSwitchState :=
  match s.currentStep, s.pendingPattern with
  | 0, some p => { s with activePattern := p, pendingPattern := none }
  | _, _ => s

/-- One iteration of the `_run` playback loop, restricted to the
pattern-switching state: apply a pending switch at the bar boundary,
read `pat_idx` (the pattern the step fires from — second component),
then `self._current_step = (self._current_step + 1) % total_steps`. -/
def seqLoopIter (totalSteps : ℕ) (s : SeqSwitchState) : SeqSwitchState × ℕ :=
  ({ applyPendingAtBar s with
      currentStep := ((applyPendingAtBar s).currentStep + 1) % totalSteps },
   (applyPendingAtBar s).activePattern)

theorem applyPendingAtBar_nonzero (s : SeqSwitchState) (h : s.currentStep ≠ 0) :
    applyPendingAtBar s = s := by
  cases hc : s.currentStep with
  | zero => exact absurd hc h
  | succ k => cases hp : s.pendingPattern <;> simp [applyPendingAtBar, hc, hp]

theorem applyPendingAtBar_zero_some (s : SeqSwitchState) (p : ℕ)
    (h0 : s.currentStep = 0) (hp : s.pendingPattern = some p) :
    applyPendingAtBar s = { s with activePattern := p, pendingPattern := none } := by
  simp [applyPendingAtBar, h0, hp]

/-- C5: a queued pattern switch never changes `active_pattern` at a step
with nonzero index; at the next step with index 0 the pending index is
applied before the step is evaluated (the step fires from the new
pattern) and the pending slot is cleared; `queue_pattern_switch` itself
only records the pending index. -/
theorem c5_bar_boundary_switch (totalSteps : ℕ) (s : SeqSwitchState) :
    (s.currentStep ≠ 0 →
      (seqLoopIter totalSteps s).1.activePattern = s.activePattern
      ∧ (seqLoopIter totalSteps s).1.pendingPattern = s.pendingPattern)
    ∧ (∀ p, s.currentStep = 0 → s.pendingPattern = some p →
      (seqLoopIter totalSteps s).1.activePattern = p
      ∧ (seqLoopIter totalSteps s).2 = p
      ∧ (seqLoopIter totalSteps s).1.pendingPattern = none)
    ∧ (∀ numPatterns index,
      (queue_pattern_switch numPatterns s index).activePattern = s.activePattern
      ∧ (queue_pattern_switch numPatterns s index).currentStep = s.currentStep) := by
  refine ⟨?_, ?_, ?_⟩
  · intro h
    rw [seqLoopIter, applyPendingAtBar_nonzero s h]
    exact ⟨rfl, rfl⟩
  · intro p h0 hp
    rw [seqLoopIter, applyPendingAtBar_zero_some s p h0 hp]
    exact ⟨rfl, rfl, rfl⟩
  · intro numPatterns index
    unfold queue_pattern_switch
    split_ifs <;> exact ⟨rfl, rfl⟩

/-- Witness for C5 at concrete inputs: with a switch to pattern 2 queued,
a step at index 5 leaves `active_pattern = 0`, while a step at index 0
fires from pattern 2 and clears the pending slot. -/
theorem c5_witness :
    (seqLoopIter 16 ⟨5, 0, some 2⟩).1.activePattern = 0
    ∧ (seqLoopIter 16 ⟨0, 0, some 2⟩).1.activePattern = 2
    ∧ (seqLoopIter 16 ⟨0, 0, some 2⟩).2 = 2
    ∧ (seqLoopIter 16 ⟨0, 0, some 2⟩).1.pendingPattern = none := by
  have h1 := (c5_bar_boundary_switch 16 ⟨5, 0, some 2⟩).1 (by decide)
  have h2 := (c5_bar_boundary_switch 16 ⟨0, 0, some 2⟩).2.1 2 rfl rfl
  exact ⟨h1.1, h2.1, h2.2.1, h2.2.2⟩

/-! ## Sequencer: count-in and stop (`SequencerEngine._run` / `stop`)

The timing thread observes `_stop_event` at discrete checkpoints (the
loop-top `is_set()` checks and the `wait(timeout=...)` calls); real time
is abstracted away and `stops k` gives the value the k-th observation
reads.  `stop()` itself sets `_playing = False` and `_current_step = 0`,
so an early `return` from `_run` leaves the engine Idle.  Sample and
metronome submissions inside the playback loop are abstracted into one
`stepFired` event per loop iteration; count-in emits `click` (the
`play_data` of the click buffer) and `countInBeat` (the
`on_count_in_beat` notification); `playbackStart` is the
`on_playback_start` notification. -/

/-- Observable events of one `_run` invocation. -/
inductive SeqEv where
  | click
  | countInBeat (beat : ℕ)
  | playbackStart
  | stepFired (step : ℕ)
deriving Repr, DecidableEq

/-- The count-in `for beat in range(1, beats_per_bar + 1)` loop: check
the stop event at the loop top (return if set), play a click and emit the
beat notification, then check again inside `wait` (return if set).
Arguments: beats remaining, next checkpoint number, accumulated events.
Returns the events plus `some` next checkpoint on completion, `none` on
abort. -/
def countInLoop (stops : ℕ → Bool) (B : ℕ) :
    ℕ → ℕ → List SeqEv → List SeqEv × Option ℕ
  | 0, k, acc => (acc, some k)
  | rem + 1, k, acc =>
    if stops k then (acc, none)
    else if stops (k + 1) then (acc ++ [SeqEv.click, SeqEv.countInBeat (B - rem)], none)
    else countInLoop stops B rem (k + 2) (acc ++ [SeqEv.click, SeqEv.countInBeat (B - rem)])

/-- The `while not self._stop_event.is_set()` playback loop: fire the
step, advance `(step + 1) % total_steps`, check the stop event in `wait`
(break if set); on exit set `_playing = False`, `_current_step = 0`.
Fuel bounds the number of iterations modelled; returns
(events, `_playing`, `_current_step`). -/
def playLoop (stops : ℕ → Bool) (totalSteps : ℕ) :
    ℕ → ℕ → ℕ → List SeqEv → List SeqEv × Bool × ℕ
  | 0, _, step, acc => (acc, true, step)
  | fuel + 1, k, step, acc =>
    if stops k then (acc, false, 0)
    else if stops (k + 1) then (acc ++ [SeqEv.stepFired step], false, 0)
    else playLoop stops totalSteps fuel (k + 2) ((step + 1) % totalSteps)
      (acc ++ [SeqEv.stepFired step])

/-- `SequencerEngine._run`: count-in (metronome clicks, or a silent
one-bar wait with a single stop check when the metronome is disabled),
then `_playing = True`, `_current_step = 0`, the `on_playback_start`
notification, then the playback loop. -/
def runSeq (stops : ℕ → Bool) (metronomeEnabled : Bool) (B totalSteps fuel : ℕ) :
    List SeqEv × Bool × ℕ :=
  match (if metronomeEnabled then countInLoop stops B B 0 []
         else if stops 0 then ([], none) else ([], some 1)) with
  | (trace, none) => (trace, false, 0)
  | (trace, some k) => playLoop stops totalSteps fuel k 0 (trace ++ [SeqEv.playbackStart])

theorem countInLoop_events (stops : ℕ → Bool) (B : ℕ) :
    ∀ (rem k : ℕ) (acc : List SeqEv) (e : SeqEv),
      e ∈ (countInLoop stops B rem k acc).1 →
      e ∈ acc ∨ e = SeqEv.click ∨ ∃ b, e = SeqEv.countInBeat b := by
  intro rem
  induction rem with
  | zero =>
    intro k acc e he
    exact Or.inl he
  | succ rem ih =>
    intro k acc e he
    simp only [countInLoop] at he
    split_ifs at he with h1 h2
    · exact Or.inl he
    · rcases List.mem_append.mp he with h | h
      · exact Or.inl h
      · simp only [List.mem_cons, List.mem_singleton] at h
        rcases h with h | h | h
        · exact Or.inr (Or.inl h)
        · exact Or.inr (Or.inr ⟨_, h⟩)
        · simp at h
    · rcases ih (k + 2) (acc ++ [SeqEv.click, SeqEv.countInBeat (B - rem)]) e he with h | h
      · rcases List.mem_append.mp h with h | h
        · exact Or.inl h
        · simp only [List.mem_cons, List.mem_singleton] at h
          rcases h with h | h | h
          · exact Or.inr (Or.inl h)
          · exact Or.inr (Or.inr ⟨_, h⟩)
          · simp at h
      · exact Or.inr h

/-- C6: if the stop event is observed at any count-in checkpoint (the
count-in phase aborts), `_run` returns directly with `_playing = False`
and `_current_step = 0` (Idle), the `on_playback_start` notification is
never emitted and no pattern step is ever fired; likewise for the silent
count-in used when the metronome is disabled. -/
theorem c6_count_in_abort (stops : ℕ → Bool) (B totalSteps fuel : ℕ) :
    ((countInLoop stops B B 0 []).2 = none →
      runSeq stops true B totalSteps fuel = ((countInLoop stops B B 0 []).1, false, 0)
      ∧ SeqEv.playbackStart ∉ (countInLoop stops B B 0 []).1
      ∧ (∀ i, SeqEv.stepFired i ∉ (countInLoop stops B B 0 []).1))
    ∧ (stops 0 = true → runSeq stops false B totalSteps fuel = ([], false, 0)) := by
  constructor
  · intro h
    refine ⟨?_, ?_, ?_⟩
    · rcases hE : countInLoop stops B B 0 [] with ⟨t, c⟩
      rw [hE] at h
      simp only at h
      subst h
      simp [runSeq, hE]
    · intro hin
      rcases countInLoop_events stops B B 0 [] SeqEv.playbackStart hin with h1 | h1 | ⟨b, h1⟩ <;>
        simp at h1
    · intro i hin
      rcases countInLoop_events stops B B 0 [] (SeqEv.stepFired i) hin with h1 | h1 | ⟨b, h1⟩ <;>
        simp at h1
  · intro h
    simp [runSeq, h]

/-- Witness for C6 at a concrete input: with the stop event set from the
first checkpoint on, `_run` (metronome on or off) ends Idle with an empty
trace. -/
theorem c6_witness :
    runSeq (fun _ => true) true 4 16 5 = ([], false, 0)
    ∧ runSeq (fun _ => true) false 4 16 5 = ([], false, 0) := by
  have h := (c6_count_in_abort (fun _ => true) 4 16 5).1 rfl
  exact ⟨h.1, (c6_count_in_abort (fun _ => true) 4 16 5).2 rfl⟩

/-! ## Sequencer: `start()` thread discipline -/

/-- The thread-management state of `SequencerEngine`: the `_playing` flag
and the number of live timing threads (`_thread` alive plus any older
ones). -/
structure EngineThreadState where
  playing : Bool
  aliveThreads : ℕ
deriving Repr, DecidableEq

/-- `SequencerEngine.start()`: `if self._playing: return`; otherwise
`join(timeout=1.0)` on a live prior thread — which removes it only if it
exits within the bounded wait (`priorExitsWithinJoin`) — and then spawn a
new timing thread unconditionally. -/
def engineStart (s : EngineThreadState) (priorExitsWithinJoin : Bool) : EngineThreadState :=
  if s.playing then s
  else
    { playing := s.playing,
      aliveThreads :=
        (if 0 < s.aliveThreads ∧ priorExitsWithinJoin = true then s.aliveThreads - 1
         else s.aliveThreads) + 1 }

/-- C7 counterexample: in the CountIn state (`_playing` is still `False`,
one live timing thread running the count-in), `start()` is not a no-op —
if the prior thread does not exit within the 1-second bounded join, a
second timing thread is spawned and two are alive at once. -/
theorem c7_counterexample :
    (engineStart ⟨false, 1⟩ false).aliveThreads = 2
    ∧ engineStart ⟨false, 1⟩ false ≠ ⟨false, 1⟩ := by
  decide

/-- C7 (amended): `start()` is a no-op only while `_playing` is `True`
(the Playing state); during CountIn the flag is still `False`, so
`start()` waits at most the bounded join and then spawns a new thread —
one thread remains if the prior thread exited within the join, two are
alive if it did not. -/
theorem c7_start_guard (s : EngineThreadState) (j : Bool) :
    (s.playing = true → engineStart s j = s)
    ∧ (s.playing = false → s.aliveThreads = 1 →
        (engineStart s j).aliveThreads = if j then 1 else 2) := by
  constructor
  · intro h
    simp [engineStart, h]
  · intro h h1
    cases j <;> simp [engineStart, h, h1]

/-- Witness for C7 at concrete inputs: `start()` while Playing returns
the state unchanged; from CountIn with a prior thread that exits within
the join, exactly one thread is alive afterwards. -/
theorem c7_witness :
    engineStart ⟨true, 1⟩ false = ⟨true, 1⟩
    ∧ (engineStart ⟨false, 1⟩ true).aliveThreads = 1 :=
  ⟨(c7_start_guard ⟨true, 1⟩ false).1 rfl,
   by simpa using (c7_start_guard ⟨false, 1⟩ true).2 rfl rfl⟩

/-! ## WAV decoder / resampler (`AudioPlayer.load_wav`)

Bytes are naturals below 256; numpy reshape failures and the
`ValueError` for unsupported widths are modelled with `Except`, and the
outer `try/except` of `load_wav` maps any error to the empty stereo
buffer `np.zeros((0, 2))`, modelled as `[]`.  The wave-module header
fields the code reads are collected in `WavFile`; the mono/stereo
channel count is a `Bool` (the spec's interface is mono-or-stereo). -/

/-- `arr.reshape(-1, 2)` on an interleaved list: consecutive pairs. -/
def pairsOf {α : Type} : List α → List (α × α)
  | a :: b :: rest => (a, b) :: pairsOf rest
  | _ => []

/-- `raw_bytes.reshape(-1, 3)`: consecutive byte triples. -/
def triplesOf {α : Type} : List α → List (α × α × α)
  | a :: b :: c :: rest => (a, b, c) :: triplesOf rest
  | _ => []

/-- 16-bit path: `np.frombuffer(raw, dtype=np.int16).astype(np.float32) / 32768.0`
on one little-endian sample `[lo, hi]`. -/
def decodeSample16 (lo hi : ℕ) : ℚ :=
  ((if lo + 256 * hi < 32768 then ((lo + 256 * hi : ℕ) : ℤ)
    else ((lo + 256 * hi : ℕ) : ℤ) - 65536 : ℤ) : ℚ) / 32768

/-- 8-bit path: `(np.frombuffer(raw, dtype=np.uint8).astype(np.float32) - 128.0) / 128.0`. -/
def decodeSample8 (b : ℕ) : ℚ := ((b : ℚ) - 128) / 128

/-- 24-bit path: pad each little-endian triple `[b0, b1, b2]` to
`[0, b0, b1, b2]`, read as a little-endian signed int32
(`(b0<<8) + (b1<<16) + (b2<<24)`, wrapped at 2^31), normalize by 2^31. -/
def decode24 (b0 b1 b2 : ℕ) : ℚ :=
  ((if b0 * 256 + b1 * 65536 + b2 * 16777216 < 2147483648 then
      ((b0 * 256 + b1 * 65536 + b2 * 16777216 : ℕ) : ℤ)
    else ((b0 * 256 + b1 * 65536 + b2 * 16777216 : ℕ) : ℤ) - 4294967296 : ℤ) : ℚ)
    / 2147483648

/-- The `width == 2 / 1 / 3 / else raise` dispatch of `load_wav`,
including numpy's shape errors when the byte count does not divide
evenly. -/
def decodeSamples (width : ℕ) (raw : List ℕ) : Except String (List ℚ) :=
  if width = 2 then
    if raw.length % 2 = 0 then
      Except.ok ((pairsOf raw).map (fun p => decodeSample16 p.1 p.2))
    else Except.error "buffer size must be a multiple of element size"
  else if width = 1 then
    Except.ok (raw.map decodeSample8)
  else if width = 3 then
    if raw.length % 3 = 0 then
      Except.ok ((triplesOf raw).map (fun t => decode24 t.1 t.2.1 t.2.2))
    else Except.error "cannot reshape array"
  else Except.error "Unsupported bit depth"

/-- Channel reshaping: mono is duplicated onto both channels
(`np.column_stack((a, a))`), stereo is `reshape(-1, 2)` (errors when the
sample count is odd). -/
def reshapeChannels (stereo : Bool) (samples : List ℚ) : Except String (List Frame) :=
  if stereo then
    if samples.length % 2 = 0 then Except.ok (pairsOf samples)
    else Except.error "cannot reshape array"
  else Except.ok (samples.map (fun x => (x, x)))

/-- The wave-module header fields and raw PCM bytes `load_wav` reads. -/
structure WavFile where
  stereo : Bool
  rate : ℕ
  sampwidth : ℕ
  nFrames : ℕ
  rawData : List ℕ

/-- `np.linspace(0, stop, num)`. -/
def linspace (stop : ℚ) (num : ℕ) : List ℚ :=
  if num = 0 then []
  else if num = 1 then [0]
  else (List.range num).map (fun i : ℕ => stop * (i : ℚ) / ((num : ℚ) - 1))

/-- `np.interp(x, xp, fp)` for increasing `xp`: clamp to `fp` ends
outside the range, linear interpolation on the containing segment
inside. -/
def interpAt : List ℚ → List ℚ → ℚ → ℚ
  | x0 :: x1 :: xs, f0 :: f1 :: fs, x =>
    if x ≤ x0 then f0
    else if x ≤ x1 then f0 + (f1 - f0) * (x - x0) / (x1 - x0)
    else interpAt (x1 :: xs) (f1 :: fs) x
  | _ :: _, f0 :: _, _ => f0
  | _, _, _ => 0

/-- `new_n_frames = int(duration * self.RATE)` with
`duration = n_frames / rate`: Python `int()` truncates toward zero,
which for this non-negative value is the floor. -/
def newFrameCount (rate nFrames : ℕ) : ℕ :=
  (⌊((nFrames : ℚ) / (rate : ℚ)) * ((RATE : ℕ) : ℚ)⌋).toNat

/-- The resampling block: `x_old = linspace(0, n_frames, n_frames)`,
`x_new = linspace(0, n_frames, new_n_frames)`, and each channel
interpolated independently with `np.interp`. -/
def resampleTo (newN nFrames : ℕ) (frames : List Frame) : List Frame :=
  (linspace (nFrames : ℚ) newN).map (fun x =>
    (interpAt (linspace (nFrames : ℚ) nFrames) (frames.map Prod.fst) x,
     interpAt (linspace (nFrames : ℚ) nFrames) (frames.map Prod.snd) x))

/-- Sample decoding followed by channel reshaping — the part of
`load_wav` before the resampling branch. -/
def decodeFrames (wf : WavFile) : Except String (List Frame) :=
  match decodeSamples wf.sampwidth wf.rawData with
  | Except.error e => Except.error e
  | Except.ok samples => reshapeChannels wf.stereo samples

/-- The body of `AudioPlayer.load_wav` up to the `except` handler.
`np.interp` raises when `x_old` is empty (`n_frames = 0`) or when its
length differs from the decoded channel length (truncated file), so the
resampling branch errors in exactly those cases. -/
def loadWavE (input : Except String WavFile) : Except String (List Frame) :=
  match input with
  | Except.error e => Except.error e
  | Except.ok wf =>
    match decodeFrames wf with
    | Except.error e => Except.error e
    | Except.ok frames =>
      if wf.rate ≠ RATE then
        if frames.length = wf.nFrames ∧ wf.nFrames ≠ 0 then
          Except.ok (resampleTo (newFrameCount wf.rate wf.nFrames) wf.nFrames frames)
        else Except.error "fp and xp are not of the same length"
      else Except.ok frames

/-- `AudioPlayer.load_wav` with its `try/except`: any failure (I/O error
on open, unsupported width, shape error, interp error) yields the empty
stereo buffer `np.zeros((0, 2))`. -/
def load_wav (input : Except String WavFile) : List Frame :=
  match loadWavE input with
  | Except.ok buf => buf
  | Except.error _ => []

theorem linspace_length (s : ℚ) (n : ℕ) : (linspace s n).length = n := by
  unfold linspace
  split_ifs with h1 h2
  · simp [h1]
  · simp [h2]
  · rw [List.length_map, List.length_range]

theorem resampleTo_length (newN nF : ℕ) (frames : List Frame) :
    (resampleTo newN nF frames).length = newN := by
  simp [resampleTo, linspace_length]

theorem newFrameCount_eq_div (rate n : ℕ) :
    newFrameCount rate n = n * RATE / rate := by
  unfold newFrameCount
  rw [Int.floor_toNat,
    show ((n : ℚ) / (rate : ℚ)) * ((RATE : ℕ) : ℚ) = ((n * RATE : ℕ) : ℚ) / (rate : ℚ) by
      push_cast; ring,
    Nat.floor_div_nat, Nat.floor_natCast]

theorem getD_map_frame (g : ℚ → Frame) (l : List ℚ) (j : ℕ) (h : j < l.length) :
    (l.map g).getD j 0 = g (l.getD j 0) := by
  induction l generalizing j with
  | nil => simp at h
  | cons a as ih =>
    cases j with
    | zero => simp
    | succ i => simpa using ih i (by simpa using h)

/-- C2 counterexample: a 1-frame mono 16-bit file at 48000 Hz decodes to
0 frames (`int(1/48000 * 44100) = int(0.91875) = 0`), while the claim's
`round(duration_seconds × 44100)` is 1. -/
theorem c2_counterexample :
    (load_wav (Except.ok ⟨false, 48000, 2, 1, [0, 0]⟩)).length = 0
    ∧ round (((1 : ℚ) / 48000) * 44100) = 1 := by
  constructor
  · have hf : decodeFrames ⟨false, 48000, 2, 1, [0, 0]⟩ = Except.ok [((0 : ℚ), (0 : ℚ))] := by
      norm_num [decodeFrames, decodeSamples, reshapeChannels, pairsOf, decodeSample16]
    have hn : newFrameCount 48000 1 = 0 := by
      rw [newFrameCount_eq_div]
      decide
    have hrne : (48000 : ℕ) ≠ RATE := by decide
    have hE : loadWavE (Except.ok ⟨false, 48000, 2, 1, [0, 0]⟩) =
        Except.ok (resampleTo 0 1 [((0 : ℚ), (0 : ℚ))]) := by
      simp [loadWavE, hf, hn, hrne]
    have hload : load_wav (Except.ok ⟨false, 48000, 2, 1, [0, 0]⟩) =
        resampleTo 0 1 [((0 : ℚ), (0 : ℚ))] := by
      simp [load_wav, hE]
    rw [hload, resampleTo_length]
  · rw [show ((1 : ℚ) / 48000) * 44100 = 147 / 160 by norm_num, round_eq,
      show (147 : ℚ) / 160 + 1 / 2 = 227 / 160 by norm_num, Int.floor_eq_iff] <;>
      norm_num

/-- C2 (amended): when the source rate differs from 44100, the resampled
frame count is the *truncation* `int(duration × 44100)`, i.e.
`⌊n_frames × 44100 / rate⌋` — not the rounding the claim states — with
each channel linearly interpolated independently over the time axis; a
file already at 44100 Hz is returned unresampled (identity on sample
values); a file at 88200 Hz yields half the original frame count. -/
theorem c2_resample_semantics (wf : WavFile) (frames : List Frame)
    (hf : decodeFrames wf = Except.ok frames) :
    (wf.rate = RATE → load_wav (Except.ok wf) = frames)
    ∧ (wf.rate ≠ RATE → frames.length = wf.nFrames → wf.nFrames ≠ 0 →
        load_wav (Except.ok wf) =
          resampleTo (newFrameCount wf.rate wf.nFrames) wf.nFrames frames
        ∧ (load_wav (Except.ok wf)).length = newFrameCount wf.rate wf.nFrames
        ∧ newFrameCount wf.rate wf.nFrames = wf.nFrames * RATE / wf.rate
        ∧ (∀ j, j < newFrameCount wf.rate wf.nFrames →
            (load_wav (Except.ok wf)).getD j 0 =
              (interpAt (linspace (wf.nFrames : ℚ) wf.nFrames) (frames.map Prod.fst)
                 ((linspace (wf.nFrames : ℚ) (newFrameCount wf.rate wf.nFrames)).getD j 0),
               interpAt (linspace (wf.nFrames : ℚ) wf.nFrames) (frames.map Prod.snd)
                 ((linspace (wf.nFrames : ℚ) (newFrameCount wf.rate wf.nFrames)).getD j 0))))
    ∧ (wf.rate = 88200 → frames.length = wf.nFrames → wf.nFrames ≠ 0 →
        (load_wav (Except.ok wf)).length = wf.nFrames / 2) := by
  refine ⟨?_, ?_, ?_⟩
  · intro hr
    simp [load_wav, loadWavE, hf, hr]
  · intro hr hlen hn0
    have hE : loadWavE (Except.ok wf) =
        Except.ok (resampleTo (newFrameCount wf.rate wf.nFrames) wf.nFrames frames) := by
      simp [loadWavE, hf, hr, hlen, hn0]
    have hload : load_wav (Except.ok wf) =
        resampleTo (newFrameCount wf.rate wf.nFrames) wf.nFrames frames := by
      simp [load_wav, hE]
    refine ⟨hload, ?_, newFrameCount_eq_div wf.rate wf.nFrames, ?_⟩
    · rw [hload, resampleTo_length]
    · intro j hj
      rw [hload]
      simp only [resampleTo]
      rw [getD_map_frame _ _ j (by rw [linspace_length]; exact hj)]
  · intro hr hlen hn0
    have hrne : wf.rate ≠ RATE := by rw [hr]; decide
    have hE : loadWavE (Except.ok wf) =
        Except.ok (resampleTo (newFrameCount wf.rate wf.nFrames) wf.nFrames frames) := by
      simp [loadWavE, hf, hrne, hlen, hn0]
    have hload : load_wav (Except.ok wf) =
        resampleTo (newFrameCount wf.rate wf.nFrames) wf.nFrames frames := by
      simp [load_wav, hE]
    rw [hload, resampleTo_length, hr, newFrameCount_eq_div]
    show wf.nFrames * RATE / 88200 = wf.nFrames / 2
    unfold RATE
    omega

/-- Witness for C2 at a concrete input: a 2-frame mono 8-bit file at
88200 Hz decodes to 1 frame. -/
theorem c2_witness :
    (load_wav (Except.ok ⟨false, 88200, 1, 2, [128, 128]⟩)).length = 1 := by
  have h := (c2_resample_semantics ⟨false, 88200, 1, 2, [128, 128]⟩ [(0, 0), (0, 0)]
    (by norm_num [decodeFrames, decodeSamples, reshapeChannels, decodeSample8])).2.2
    rfl (by decide) (by decide)
  simpa using h

/-- The claim's reading of the 24-bit decode: the three packed bytes as a
24-bit signed integer. -/
def signed24 (v : ℕ) : ℤ := if v < 8388608 then (v : ℤ) else (v : ℤ) - 16777216

/-- C3: each little-endian byte triple of a 24-bit file decodes to the
24-bit signed value left-shifted by 8 (the high 24 bits of a signed
int32), normalized by 2^31; `[0x00, 0x00, 0x80]` decodes to -1.0 and
`[0xFF, 0xFF, 0x7F]` to `(2^31 - 256) / 2^31`; the width-3 branch of
`load_wav` applies this triple-wise to the raw bytes. -/
theorem c3_decode24_shift (b0 b1 b2 : ℕ) (h0 : b0 < 256) (h1 : b1 < 256) (h2 : b2 < 256) :
    decode24 b0 b1 b2 = ((signed24 (b0 + b1 * 256 + b2 * 65536) * 256 : ℤ) : ℚ) / 2147483648
    ∧ decode24 0 0 128 = -1
    ∧ decode24 255 255 127 = (2147483648 - 256) / 2147483648
    ∧ (∀ raw : List ℕ, raw.length % 3 = 0 →
        decodeSamples 3 raw =
          Except.ok ((triplesOf raw).map (fun t => decode24 t.1 t.2.1 t.2.2))) := by
  refine ⟨?_, by norm_num [decode24], by norm_num [decode24], ?_⟩
  · unfold decode24 signed24
    have huv : b0 * 256 + b1 * 65536 + b2 * 16777216 = (b0 + b1 * 256 + b2 * 65536) * 256 := by
      ring
    by_cases hb : b2 < 128
    · rw [if_pos (by omega), if_pos (by omega)]
      have hz : ((b0 * 256 + b1 * 65536 + b2 * 16777216 : ℕ) : ℤ)
          = ((b0 + b1 * 256 + b2 * 65536 : ℕ) : ℤ) * 256 := by
        exact_mod_cast congrArg (fun m : ℕ => (m : ℤ)) huv
      rw [hz]
    · rw [if_neg (by omega), if_neg (by omega)]
      have hz : ((b0 * 256 + b1 * 65536 + b2 * 16777216 : ℕ) : ℤ) - 4294967296
          = (((b0 + b1 * 256 + b2 * 65536 : ℕ) : ℤ) - 16777216) * 256 := by
        have hc : ((b0 * 256 + b1 * 65536 + b2 * 16777216 : ℕ) : ℤ)
            = ((b0 + b1 * 256 + b2 * 65536 : ℕ) : ℤ) * 256 := by
          exact_mod_cast congrArg (fun m : ℕ => (m : ℤ)) huv
        rw [hc]; ring
      rw [hz]
  · intro raw h3
    simp [decodeSamples, h3]

/-- Witness for C3 at a concrete input: the triple `[1, 2, 3]`. -/
theorem c3_witness :
    decode24 1 2 3 = ((signed24 (1 + 2 * 256 + 3 * 65536) * 256 : ℤ) : ℚ) / 2147483648 :=
  (c3_decode24_shift 1 2 3 (by norm_num) (by norm_num) (by norm_num)).1

/-- C8: `load_wav` returns the empty stereo buffer on an I/O failure, on
an unsupported sample width (anything other than 1, 2 or 3 bytes), and
in general whenever its body raises — it never propagates an exception
past the `try/except` boundary. -/
theorem c8_error_empty_buffer :
    (∀ e : String, load_wav (Except.error e) = [])
    ∧ (∀ wf : WavFile, wf.sampwidth ≠ 1 → wf.sampwidth ≠ 2 → wf.sampwidth ≠ 3 →
        load_wav (Except.ok wf) = [])
    ∧ (∀ (input : Except String WavFile) (e : String),
        loadWavE input = Except.error e → load_wav input = []) := by
  refine ⟨?_, ?_, ?_⟩
  · intro e; rfl
  · intro wf h1 h2 h3
    have hd : decodeSamples wf.sampwidth wf.rawData = Except.error "Unsupported bit depth" := by
      unfold decodeSamples
      rw [if_neg h2, if_neg h1, if_neg h3]
    simp [load_wav, loadWavE, decodeFrames, hd]
  · intro input e h
    simp [load_wav, h]

/-- Witness for C8 at a concrete input: a 32-bit-width (4-byte) file
yields the empty buffer. -/
theorem c8_witness : load_wav (Except.ok ⟨false, 44100, 4, 0, []⟩) = [] :=
  (c8_error_empty_buffer).2.1 ⟨false, 44100, 4, 0, []⟩ (by decide) (by decide) (by decide)

end SimpleSampler
